import Mathlib

/-!
Verification of the command console in `src/src/pages/Dashboard.tsx`:
the payload classification helpers (`isFirebaseUrl`, `isFirebaseVoiceUrl`,
`isFirebaseImageUrl`, `extractMapCoordinates`, `extractPathCoordinates`),
the JSX classification chain, the snapshot projector `handleValue`
(normalization + sort), and the dispatcher `sendCommand`.

JavaScript values relevant to the helpers are modelled by `JsVal`
(strings, `null`, `undefined`, and a stand-in for any other non-string
value); machine numbers are modelled by `Int` (the timestamps in play are
integral `Date.now()` values); regular expressions are modelled by
explicit scanners with JavaScript's leftmost-match and greedy/backtracking
semantics spelled out at each definition.
-/

namespace PhoneSecure

/-- A JavaScript value as far as the Dashboard helpers can observe it:
a string, `null`, `undefined`, or some other non-string value. -/
inductive JsVal where
  | nullV : JsVal
  | undefV : JsVal
  | str : String → JsVal
  | other : JsVal
deriving DecidableEq

/-- A latitude/longitude pair as produced by the extractors
(kept as raw strings, exactly as in the code: no numeric validation). -/
structure Coord where
  lat : String
  lng : String
deriving DecidableEq

/-- The typed rendering outcome of the JSX response chain
(Dashboard.tsx lines 649-667), one constructor per branch. -/
inductive ContentDescriptor where
  | voiceNote : JsVal → ContentDescriptor
  | image : JsVal → ContentDescriptor
  | genericAttachment : JsVal → ContentDescriptor
  | path : List Coord → ContentDescriptor
  | singlePoint : Coord → ContentDescriptor
  | plainText : JsVal → ContentDescriptor
deriving DecidableEq

/-- Does the second list start with the first one?
(Building block for JavaScript `String.includes`.) -/
def startsWithSeq : List Char → List Char → Bool
  | [], _ => true
  | _ :: _, [] => false
  | a :: as, b :: bs => a == b && startsWithSeq as bs

/-- Substring containment on character lists: JavaScript `haystack.includes(pat)`. -/
def containsSeq (pat : List Char) : List Char → Bool
  | [] => pat.isEmpty
  | c :: rest => startsWithSeq pat (c :: rest) || containsSeq pat rest

/-- JavaScript `s.includes(pat)` on strings. -/
def strContains (s : String) (pat : String) : Bool :=
  containsSeq pat.data s.data

/-- `isFirebaseUrl` (Dashboard.tsx 27-30): the `!url || typeof url !== 'string'`
guard rejects `null`, `undefined`, the empty string and non-strings;
otherwise it is `url.includes('firebasestorage.googleapis.com')`. -/
def isFirebaseUrl (u : JsVal) : Bool :=
  match u with
  | .str s => if s = "" then false else strContains s "firebasestorage.googleapis.com"
  | _ => false

/-- `isFirebaseVoiceUrl` (Dashboard.tsx 32-36). -/
def isFirebaseVoiceUrl (u : JsVal) : Bool :=
  if isFirebaseUrl u then
    match u with
    | .str s =>
      (strContains s "/recordings/" || strContains s "recording_") && strContains s ".mp3"
    | _ => false
  else false

/-- `isFirebaseImageUrl` (Dashboard.tsx 38-43). -/
def isFirebaseImageUrl (u : JsVal) : Bool :=
  if isFirebaseUrl u then
    match u with
    | .str s =>
      (strContains s "/selfies/" || strContains s "photo_" ||
        strContains s "image_" || strContains s "selfie_") &&
      (strContains s ".jpg" || strContains s ".jpeg" || strContains s ".png")
    | _ => false
  else false

/-- The character class `[\d.-]` of the regex in `extractMapCoordinates`. -/
def classChar (c : Char) : Bool :=
  c.isDigit || c == '.' || c == '-'

/-- One attempt of the regex `q=([\d.-]+),([\d.-]+)` at a fixed position:
the literal `q=`, a maximal nonempty run of class characters (greedy `+`;
no shorter run can be followed by `,` because `,` is not a class
character, so greediness is forced), a `,`, and a second maximal nonempty
run. Returns the two captured groups. -/
def matchQAt (l : List Char) : Option (List Char × List Char) :=
  if startsWithSeq ['q', '='] l then
    let r := l.drop 2
    let r1 := r.takeWhile classChar
    if r1.isEmpty then none
    else
      match r.dropWhile classChar with
      | c :: r2 =>
        if c = ',' then
          let s1 := r2.takeWhile classChar
          if s1.isEmpty then none else some (r1, s1)
        else none
      | [] => none
  else none

/-- Leftmost match of `q=([\d.-]+),([\d.-]+)`: JavaScript `String.match`
tries the pattern at every index from the left and returns the first success. -/
def scanQ : List Char → Option (List Char × List Char)
  | [] => none
  | c :: rest =>
    match matchQAt (c :: rest) with
    | some r => some r
    | none => scanQ rest

/-- `extractMapCoordinates` (Dashboard.tsx 46-66): guard degenerate input,
require both `google.com/maps` and `q=` as substrings, then run the regex;
a successful match always has exactly the two groups, which become
`{lat, lng}`. Nothing in the `try` block can throw, so the `catch` arm is
dead code. -/
def extractMapCoordinates (u : JsVal) : Option Coord :=
  match u with
  | .str s =>
    if s = "" then none
    else if strContains s "google.com/maps" && strContains s "q=" then
      match scanQ s.data with
      | some (a, b) => some ⟨String.mk a, String.mk b⟩
      | none => none
    else none
  | _ => none

/-- JavaScript line terminators, which `.` in a regex does not match. -/
def isLineTerm (c : Char) : Bool :=
  c == '\n' || c == '\r' || c == '\u2028' || c == '\u2029'

/-- JavaScript `\s` / `String.trim` whitespace (ASCII whitespace, line
terminators and the common Unicode space characters used by JS engines). -/
def isWs (c : Char) : Bool :=
  c == ' ' || c == '\t' || c == '\n' || c == '\r' || c == '\x0b' ||
  c == '\x0c' || c == '\u00A0' || c == '\u2028' || c == '\u2029' || c == '\uFEFF'

/-- The regex fragment `(.+)` at a fixed position: at least one
non-line-terminator character, extended greedily to the end of the line. -/
def dotPlus (l : List Char) : Option (List Char) :=
  match l with
  | [] => none
  | c :: rest =>
    if isLineTerm c then none
    else some (c :: rest.takeWhile (fun d => !(isLineTerm d)))

/-- Backtracking for `\s*(.+)`: the greedy `\s*` first consumes `k`
whitespace characters and gives the rest to `(.+)`, backing off one
character at a time on failure. Called with `k` = length of the maximal
whitespace run. -/
def backtrackWs (l : List Char) : Nat → Option (List Char)
  | 0 => dotPlus l
  | k + 1 =>
    match dotPlus (l.drop (k + 1)) with
    | some g => some g
    | none => backtrackWs l k

/-- The tail `\s*(.+)` of the path regex, applied right after `Path:`. -/
def matchTail (l : List Char) : Option (List Char) :=
  backtrackWs l (l.takeWhile isWs).length

/-- Leftmost match of `/Path:\s*(.+)/` (group 1): at every index from the
left, try the literal `Path:` followed by `\s*(.+)`. -/
def findPathMatch : List Char → Option (List Char)
  | [] => none
  | c :: rest =>
    if startsWithSeq ("Path:").data (c :: rest) then
      match matchTail ((c :: rest).drop 5) with
      | some g => some g
      | none => findPathMatch rest
    else findPathMatch rest

/-- JavaScript `String.trim`. -/
def trimSeq (l : List Char) : List Char :=
  ((l.dropWhile isWs).reverse.dropWhile isWs).reverse

/-- JavaScript `String.split(sep)` for a one-character separator
(`split` never returns an empty array: splitting `""` yields `[""]`). -/
def splitOnChar (sep : Char) : List Char → List (List Char)
  | [] => [[]]
  | c :: rest =>
    if c = sep then [] :: splitOnChar sep rest
    else
      match splitOnChar sep rest with
      | h :: t => (c :: h) :: t
      | [] => [[c]]

/-- One element of the `coordPairs.map` in `extractPathCoordinates`
(Dashboard.tsx 82-88): `const [lat, lng] = pair.split(',')` destructures
the first two components (any further components are ignored); the
truthiness test `if (lat && lng)` requires both to exist and be nonempty
(before trimming); on success both are trimmed. -/
def parsePairJS (p : List Char) : Option Coord :=
  match splitOnChar ',' p with
  | a :: b :: _ =>
    if a.isEmpty || b.isEmpty then none
    else some ⟨String.mk (trimSeq a), String.mk (trimSeq b)⟩
  | _ => none

/-- `extractPathCoordinates` (Dashboard.tsx 69-101): guard degenerate
input, require the `Path:` marker, run `/Path:\s*(.+)/` (the `pathMatch &&
pathMatch[1]` test is the emptiness test on group 1), trim, split on `|`,
require at least 2 raw pairs, parse each pair and filter out failures
(`map` + `filter` = `filterMap`), and require at least 2 surviving pairs.
Nothing in the `try` block can throw, so the `catch` arm is dead code. -/
def extractPathCoordinates (u : JsVal) : Option (List Coord) :=
  match u with
  | .str s =>
    if s = "" then none
    else if strContains s "Path:" then
      match findPathMatch s.data with
      | some g =>
        if g.isEmpty then none
        else if (splitOnChar '|' (trimSeq g)).length ≥ 2 then
          if ((splitOnChar '|' (trimSeq g)).filterMap parsePairJS).length ≥ 2 then
            some ((splitOnChar '|' (trimSeq g)).filterMap parsePairJS)
          else none
        else none
      | none => none
    else none
  | _ => none

/-- The JSX response-rendering chain (Dashboard.tsx 649-667), read as a
classification function: voice note, then image, then generic attachment,
then path, then single map point, then plain text. -/
def classify (u : JsVal) : ContentDescriptor :=
  if isFirebaseVoiceUrl u then .voiceNote u
  else if isFirebaseImageUrl u then .image u
  else if isFirebaseUrl u then .genericAttachment u
  else
    match extractPathCoordinates u with
    | some ps => .path ps
    | none =>
      match extractMapCoordinates u with
      | some c => .singlePoint c
      | none => .plainText u

/-- The `ServerCommands` union (Dashboard.tsx 7-15). -/
inductive ServerCommand where
  | takeSelfie
  | getVoiceNote
  | getSimNumbers
  | getLocation
  | getLocationTimeline
  | sendNotification
deriving DecidableEq

/-- The wire string of each command (Dashboard.tsx 7-14). -/
def ServerCommand.asString : ServerCommand → String
  | .takeSelfie => "TakeSelfie"
  | .getVoiceNote => "GetVoiceNote"
  | .getSimNumbers => "GetSimNumbers"
  | .getLocation => "GetLocation"
  | .getLocationTimeline => "GetLocationTimeline"
  | .sendNotification => "SendNotification"

/-- `MessageStatus.BEFORE_UPLOADED` (Dashboard.tsx 18-23). -/
def statusBeforeUploaded : String := "BEFORE_UPLOADED"

/-- `MessageStatus.UPLOADED`. -/
def statusUploaded : String := "UPLOADED"

/-- `MessageStatus.DELIVERED`. -/
def statusDelivered : String := "DELIVERED"

/-- The `ChatMessage` record shape (Dashboard.tsx 470-478); every field
that the interface marks optional (or that a legacy stored record may
omit) is an `Option`. -/
structure RawRec where
  key : Option String
  command : String
  commandTimestamp : Option Int
  status : String
  response : Option String
  responseTimestamp : Option Int
  timestamp : Option Int
deriving DecidableEq

/-- JavaScript `a || b` on a number-or-undefined left operand: `undefined`
and `0` are falsy and fall through to `b`. -/
def tsOr (a : Option Int) (b : Int) : Int :=
  match a with
  | some v => if v = 0 then b else v
  | none => b

/-- The sort key `a.commandTimestamp || a.timestamp || 0`
(Dashboard.tsx 546-547). -/
def sortKey (r : RawRec) : Int :=
  tsOr r.commandTimestamp (tsOr r.timestamp 0)

/-- Defined from the spec's words, for comparison with `sortKey`:
"primary = `issuedAt` (command creation timestamp); if absent, falls back
to a legacy single `timestamp` field; if both absent, treated as `0`" —
absence, not JavaScript falsiness, decides the fallback here. -/
def specSortKey (r : RawRec) : Int :=
  r.commandTimestamp.getD (r.timestamp.getD 0)

/-- The comparator `(a, b) => aTime - bTime` (Dashboard.tsx 545-549),
read as a `≤` test: a negative-or-zero difference keeps `a` before `b`. -/
def recLE (a b : RawRec) : Bool :=
  decide (sortKey a ≤ sortKey b)

/-- `messages.sort(comparator)` (Dashboard.tsx 545): ECMAScript `sort` is
stable, so it is a stable merge sort under `recLE`. -/
def sortMsgs (l : List RawRec) : List RawRec :=
  l.mergeSort recLE

/-- JavaScript truthiness of `msgData.key` (a string-or-undefined):
`undefined` and the empty string are falsy. -/
def keyFalsy (k : Option String) : Bool :=
  match k with
  | none => true
  | some s => s = ""

/-- One step of the `Object.entries(data).map` in `handleValue`
(Dashboard.tsx 534-540). The stored value under a storage slot is
`Option RawRec`: `none` stands for a `null`/`undefined` stored value, on
which `msgData.key` throws (modelled as `none`); a record whose `key` is
falsy gets the slot key spliced in. -/
def normalizeEntry (slot : String) (v : Option RawRec) : Option RawRec :=
  match v with
  | none => none
  | some r => some (if keyFalsy r.key then { r with key := some slot } else r)

/-- The whole `.map` over the entries: JavaScript's exception propagation
means the first throwing element aborts the entire map. -/
def normalizeAll : List (String × Option RawRec) → Option (List RawRec)
  | [] => some []
  | e :: rest =>
    match normalizeEntry e.1 e.2 with
    | none => none
    | some r =>
      match normalizeAll rest with
      | none => none
      | some rs => some (r :: rs)

/-- `handleValue` (Dashboard.tsx 520-557) as a function from the received
snapshot to the message list handed to `setChatMessages`: a `null`
snapshot yields `[]`; otherwise the entries are normalized and sorted
inside a `try`, and any exception lands in the `catch`, which emits `[]`. -/
def handleValue (data : Option (List (String × Option RawRec))) : List RawRec :=
  match data with
  | none => []
  | some entries =>
    match normalizeAll entries with
    | none => []
    | some ms => sortMsgs ms

/-- The environment a single `sendCommand` call runs in: the key Firebase
`push` hands out, the `Date.now()` reading, and whether each of the two
`set` calls fails (rejects) at the transport. -/
structure DispatchEnv where
  pushKey : String
  now : Int
  failFirstSet : Bool
  failSecondSet : Bool
deriving DecidableEq

/-- Observable Log Port / console effects of one `sendCommand` call, in
order: `push` key allocation, a successful `set` of a record at a key, and
the `console.error` in the `catch` arm. -/
inductive LogEffect where
  | pushKeyAlloc : String → LogEffect
  | setRecord : String → RawRec → LogEffect
  | consoleError : LogEffect
deriving DecidableEq

/-- What the caller of `sendCommand` observes: the returned promise either
resolves, or rejects with an error. -/
inductive DispatchOutcome where
  | resolved : DispatchOutcome
  | rejected : String → DispatchOutcome
deriving DecidableEq

/-- The `chatMessage` object built by `sendCommand` (Dashboard.tsx 449-455). -/
def initialChatMessage (c : ServerCommand) (env : DispatchEnv) : RawRec :=
  { key := some env.pushKey
    command := c.asString
    commandTimestamp := some env.now
    status := statusBeforeUploaded
    response := none
    responseTimestamp := none
    timestamp := none }

/-- `sendCommand` (Dashboard.tsx 434-466). A falsy `command` returns at
once (no push, no write). Otherwise: `push` allocates a key, the first
`set` writes the `BEFORE_UPLOADED` record, the second `set` overwrites it
with status `UPLOADED`; a failure of either `set` jumps to the `catch`
arm, which logs to the console — the promise still resolves. -/
def sendCommand (cmd : Option ServerCommand) (env : DispatchEnv) :
    DispatchOutcome × List LogEffect :=
  match cmd with
  | none => (.resolved, [])
  | some c =>
    let m1 := initialChatMessage c env
    if env.failFirstSet then
      (.resolved, [.pushKeyAlloc env.pushKey, .consoleError])
    else if env.failSecondSet then
      (.resolved, [.pushKeyAlloc env.pushKey, .setRecord env.pushKey m1, .consoleError])
    else
      (.resolved,
        [.pushKeyAlloc env.pushKey, .setRecord env.pushKey m1,
          .setRecord env.pushKey { m1 with status := statusUploaded }])

/-! ### Concrete instances used in witnesses and counterexamples -/

/-- The URL used to refute the literal precedence claim: it is on the
attachment host and satisfies the image pattern as well as the voice
pattern. -/
def voiceImageUrl : JsVal :=
  .str "https://firebasestorage.googleapis.com/recordings/selfie_1.jpg.mp3"

/-- A URL matching the image pattern but not the voice pattern. -/
def imageOnlyUrl : JsVal :=
  .str "https://firebasestorage.googleapis.com/selfies/photo_1.jpg"

/-- A dispatch environment in which both writes succeed. -/
def envOk : DispatchEnv := ⟨"msgKey1", 1000, false, false⟩

/-- An arbitrary dispatch environment for the null-command run. -/
def envIdle : DispatchEnv := ⟨"k0", 50, false, false⟩

/-- A dispatch environment whose first Log Port write fails. -/
def envFailFirst : DispatchEnv := ⟨"k2", 200, true, false⟩

/-- A well-formed stored record. -/
def goodRec : RawRec := ⟨some "m1", "GetLocation", some 5, "UPLOADED", none, none, none⟩

/-- A stored record whose key field is present but empty. -/
def emptyKeyRec : RawRec := ⟨some "", "GetLocation", some 7, "UPLOADED", none, none, none⟩

/-- A stored record with no key field at all. -/
def noKeyRec : RawRec := ⟨none, "GetLocation", some 9, "UPLOADED", none, none, none⟩

/-- The host-and-path head of a well-formed Google Maps URL, up to and
excluding the `q=` parameter; used in the amended map-link theorem. -/
def mapsHead : List Char := ("https://www.google.com/maps?").data

/-- The record refuting the claim's sort key: `commandTimestamp` is
present with value 0, legacy `timestamp` is 5. -/
def recZeroTs : RawRec := ⟨some "a", "GetLocation", some 0, "UPLOADED", none, none, some 5⟩

/-- A record with `commandTimestamp = 3` and no legacy timestamp. -/
def recThreeTs : RawRec := ⟨some "b", "TakeSelfie", some 3, "UPLOADED", none, none, none⟩

/-! ### Helper lemmas -/

theorem voice_false_of_not_url {u : JsVal} (h : isFirebaseUrl u = false) :
    isFirebaseVoiceUrl u = false := by
  simp [isFirebaseVoiceUrl, h]

theorem image_false_of_not_url {u : JsVal} (h : isFirebaseUrl u = false) :
    isFirebaseImageUrl u = false := by
  simp [isFirebaseImageUrl, h]

/-! ### Claim C1 -/

/-- Claim C1 counterexample: a URL on the attachment host that satisfies
both the image pattern and the generic-attachment (host) pattern, but
classifies as a voice note — not as an image — because it also satisfies
the voice pattern, which is checked first. -/
theorem classify_image_and_generic_counterexample :
    isFirebaseImageUrl voiceImageUrl = true ∧
    isFirebaseUrl voiceImageUrl = true ∧
    classify voiceImageUrl = .voiceNote voiceImageUrl ∧
    classify voiceImageUrl ≠ .image voiceImageUrl := by
  refine ⟨by decide, by decide, by decide, by decide⟩

/-- Claim C1 (amended): classification is a total function checking the
patterns in the exact order voice note, image, generic attachment, path,
single point, plain text, first match wins; a URL satisfying both the
image and the generic-attachment patterns classifies as an image provided
it does not also satisfy the voice pattern, and in no case does an
image-pattern URL classify as a generic attachment. -/
theorem classify_first_match_order (u : JsVal) :
    (isFirebaseVoiceUrl u = true → classify u = .voiceNote u) ∧
    (isFirebaseVoiceUrl u = false → isFirebaseImageUrl u = true →
      classify u = .image u) ∧
    (isFirebaseVoiceUrl u = false → isFirebaseImageUrl u = false →
      isFirebaseUrl u = true → classify u = .genericAttachment u) ∧
    (isFirebaseUrl u = false → ∀ ps, extractPathCoordinates u = some ps →
      classify u = .path ps) ∧
    (isFirebaseUrl u = false → extractPathCoordinates u = none →
      ∀ c, extractMapCoordinates u = some c → classify u = .singlePoint c) ∧
    (isFirebaseUrl u = false → extractPathCoordinates u = none →
      extractMapCoordinates u = none → classify u = .plainText u) ∧
    (isFirebaseImageUrl u = true → classify u ≠ .genericAttachment u) := by
  refine ⟨fun h1 => ?_, fun h1 h2 => ?_, fun h1 h2 h3 => ?_, fun h1 ps h2 => ?_,
    fun h1 h2 c h3 => ?_, fun h1 h2 h3 => ?_, fun h1 => ?_⟩
  · simp [classify, h1]
  · simp [classify, h1, h2]
  · simp [classify, h1, h2, h3]
  · simp [classify, voice_false_of_not_url h1, image_false_of_not_url h1, h1, h2]
  · simp [classify, voice_false_of_not_url h1, image_false_of_not_url h1, h1, h2, h3]
  · simp [classify, voice_false_of_not_url h1, image_false_of_not_url h1, h1, h2, h3]
  · by_cases hv : isFirebaseVoiceUrl u
    · simp [classify, hv]
    · simp [classify, hv, h1]

theorem classify_first_match_order_witness :
    classify imageOnlyUrl = .image imageOnlyUrl ∧
    classify imageOnlyUrl ≠ .genericAttachment imageOnlyUrl :=
  ⟨(classify_first_match_order imageOnlyUrl).2.1 (by decide) (by decide),
    (classify_first_match_order imageOnlyUrl).2.2.2.2.2.2 (by decide)⟩

/-! ### Claim C6 -/

/-- Claim C6: a successful dispatch of a non-null command allocates
exactly one new key, writes the record once with status `BEFORE_UPLOADED`
and `commandTimestamp = now`, then overwrites it exactly once with status
`UPLOADED` — and performs no other Log Port operation. -/
theorem sendCommand_success_trace (c : ServerCommand) (env : DispatchEnv)
    (h1 : env.failFirstSet = false) (h2 : env.failSecondSet = false) :
    sendCommand (some c) env =
      (.resolved,
        [.pushKeyAlloc env.pushKey,
          .setRecord env.pushKey (initialChatMessage c env),
          .setRecord env.pushKey
            { initialChatMessage c env with status := statusUploaded }]) ∧
    (initialChatMessage c env).status = statusBeforeUploaded ∧
    (initialChatMessage c env).commandTimestamp = some env.now ∧
    (initialChatMessage c env).key = some env.pushKey := by
  refine ⟨?_, rfl, rfl, rfl⟩
  simp [sendCommand, h1, h2]

theorem sendCommand_success_trace_witness :
    sendCommand (some .getLocation) envOk =
      (.resolved,
        [.pushKeyAlloc "msgKey1",
          .setRecord "msgKey1" (initialChatMessage .getLocation envOk),
          .setRecord "msgKey1"
            { initialChatMessage .getLocation envOk with status := statusUploaded }]) :=
  (sendCommand_success_trace .getLocation envOk rfl rfl).1

/-! ### Claim C7 -/

/-- Claim C7 counterexample: the null-command dispatch is indeed a no-op
(no key allocation, no write, no log), but it does not return an error:
the promise resolves normally. -/
theorem sendCommand_none_counterexample :
    sendCommand none envIdle = (.resolved, []) ∧
    ∀ e, (sendCommand none envIdle).1 ≠ .rejected e := by
  refine ⟨rfl, fun e h => ?_⟩
  exact DispatchOutcome.noConfusion h

/-- Claim C7 (amended): dispatch with a null command is a local no-op that
returns normally: no identity is allocated, no record (not even a partial
one) is written, no error is surfaced. -/
theorem sendCommand_none_noop (env : DispatchEnv) :
    sendCommand none env = (.resolved, []) := rfl

/-! ### Claim C8 -/

/-- Claim C8 counterexample: the first write fails, yet the caller of
dispatch observes a resolved promise — the failure is only logged to the
console, never reflected in the result. -/
theorem sendCommand_swallow_counterexample :
    sendCommand (some .getLocation) envFailFirst =
      (.resolved, [.pushKeyAlloc "k2", .consoleError]) ∧
    ∀ e, (sendCommand (some .getLocation) envFailFirst).1 ≠ .rejected e := by
  refine ⟨rfl, fun e h => ?_⟩
  exact DispatchOutcome.noConfusion h

/-- Claim C8 (amended): a Log Port write failure during dispatch is caught
inside dispatch: a console error is recorded, the promise resolves in
every case, and no further write is attempted after the failing one. -/
theorem sendCommand_failure_caught (c : ServerCommand) (env : DispatchEnv) :
    (sendCommand (some c) env).1 = .resolved ∧
    (env.failFirstSet = true →
      (sendCommand (some c) env).2 = [.pushKeyAlloc env.pushKey, .consoleError]) ∧
    (env.failFirstSet = false → env.failSecondSet = true →
      (sendCommand (some c) env).2 =
        [.pushKeyAlloc env.pushKey,
          .setRecord env.pushKey (initialChatMessage c env), .consoleError]) := by
  refine ⟨?_, fun h1 => ?_, fun h1 h2 => ?_⟩
  · by_cases h1 : env.failFirstSet <;> by_cases h2 : env.failSecondSet <;>
      simp [sendCommand, h1, h2]
  · simp [sendCommand, h1]
  · simp [sendCommand, h1, h2]

theorem sendCommand_failure_caught_witness :
    (sendCommand (some .getLocation) envFailFirst).1 = .resolved ∧
    (sendCommand (some .getLocation) envFailFirst).2 =
      [.pushKeyAlloc "k2", .consoleError] :=
  ⟨(sendCommand_failure_caught .getLocation envFailFirst).1,
    (sendCommand_failure_caught .getLocation envFailFirst).2.1 rfl⟩

/-! ### String-scanning helper lemmas -/

theorem takeWhile_eq_self_of_all {α : Type} {p : α → Bool} {l : List α}
    (h : ∀ c ∈ l, p c = true) : l.takeWhile p = l := by
  induction l with
  | nil => rfl
  | cons c rest ih =>
    rw [List.takeWhile_cons, h c (List.mem_cons_self _ _)]
    simp [ih (fun d hd => h d (List.mem_cons_of_mem _ hd))]

theorem takeWhile_append_stop {α : Type} {p : α → Bool} {l t : List α} {x : α}
    (h : ∀ c ∈ l, p c = true) (hx : p x = false) :
    (l ++ x :: t).takeWhile p = l := by
  induction l with
  | nil => simp [List.takeWhile_cons, hx]
  | cons c rest ih =>
    rw [List.cons_append, List.takeWhile_cons, h c (List.mem_cons_self _ _)]
    simp [ih (fun d hd => h d (List.mem_cons_of_mem _ hd))]

theorem dropWhile_append_stop {α : Type} {p : α → Bool} {l t : List α} {x : α}
    (h : ∀ c ∈ l, p c = true) (hx : p x = false) :
    (l ++ x :: t).dropWhile p = x :: t := by
  induction l with
  | nil => simp [List.dropWhile_cons, hx]
  | cons c rest ih =>
    rw [List.cons_append, List.dropWhile_cons]
    simp [h c (List.mem_cons_self _ _), ih (fun d hd => h d (List.mem_cons_of_mem _ hd))]

theorem startsWithSeq_mem {pat l : List Char} (h : startsWithSeq pat l = true)
    {c : Char} (hc : c ∈ pat) : c ∈ l := by
  induction pat generalizing l with
  | nil => simp at hc
  | cons a as ih =>
    cases l with
    | nil => simp [startsWithSeq] at h
    | cons b bs =>
      rw [startsWithSeq, Bool.and_eq_true, beq_iff_eq] at h
      rcases List.mem_cons.mp hc with h3 | h3
      · rw [h3, h.1]
        exact List.mem_cons_self _ _
      · exact List.mem_cons_of_mem _ (ih h.2 h3)

theorem startsWithSeq_append {pat l t : List Char}
    (h : startsWithSeq pat l = true) : startsWithSeq pat (l ++ t) = true := by
  induction pat generalizing l with
  | nil => rfl
  | cons a as ih =>
    cases l with
    | nil => simp [startsWithSeq] at h
    | cons b bs =>
      rw [startsWithSeq, Bool.and_eq_true] at h
      rw [List.cons_append, startsWithSeq, Bool.and_eq_true]
      exact ⟨h.1, ih h.2⟩

theorem containsSeq_nil_pat (l : List Char) : containsSeq [] l = true := by
  cases l with
  | nil => rfl
  | cons c rest => rw [containsSeq, startsWithSeq]; rfl

theorem containsSeq_append_left {pat l : List Char} (t : List Char)
    (h : containsSeq pat l = true) : containsSeq pat (l ++ t) = true := by
  induction l with
  | nil =>
    rw [containsSeq] at h
    have hp : pat = [] := by simpa [List.isEmpty_iff] using h
    rw [hp, List.nil_append]
    exact containsSeq_nil_pat t
  | cons c rest ih =>
    rw [containsSeq, Bool.or_eq_true] at h
    rw [List.cons_append, containsSeq, Bool.or_eq_true]
    rcases h with h | h
    · exact Or.inl (by simpa [List.cons_append] using startsWithSeq_append (t := t) h)
    · exact Or.inr (ih h)

theorem containsSeq_append_right {pat t : List Char} (l : List Char)
    (h : containsSeq pat t = true) : containsSeq pat (l ++ t) = true := by
  induction l with
  | nil => exact h
  | cons c rest ih =>
    rw [List.cons_append, containsSeq, Bool.or_eq_true]
    exact Or.inr ih

theorem containsSeq_mem {pat l : List Char} (h : containsSeq pat l = true)
    {c : Char} (hc : c ∈ pat) : c ∈ l := by
  induction l with
  | nil =>
    cases pat with
    | nil => simp at hc
    | cons a as => rw [containsSeq] at h; exact absurd h (by simp [List.isEmpty])
  | cons b bs ih =>
    rw [containsSeq, Bool.or_eq_true] at h
    rcases h with h | h
    · exact startsWithSeq_mem h hc
    · exact List.mem_cons_of_mem _ (ih h)

theorem containsSeq_eq_false_of_not_mem {pat l : List Char} {c : Char}
    (hc : c ∈ pat) (hl : c ∉ l) : containsSeq pat l = false := by
  cases hcc : containsSeq pat l with
  | false => rfl
  | true => exact absurd (containsSeq_mem hcc hc) hl

theorem not_mem_of_classChar {x : Char} {l : List Char}
    (h : ∀ c ∈ l, classChar c = true) (hx : classChar x = false) : x ∉ l := by
  intro hm
  have hb := h x hm
  rw [hx] at hb
  exact Bool.noConfusion hb

theorem matchQAt_cons_ne {c : Char} {l : List Char} (h : c ≠ 'q') :
    matchQAt (c :: l) = none := by
  have h1 : ('q' == c) = false := by
    simp [Ne.symm h]
  rw [matchQAt, startsWithSeq, h1]
  rfl

theorem scanQ_append_skip {pre l : List Char} (h : ∀ c ∈ pre, c ≠ 'q') :
    scanQ (pre ++ l) = scanQ l := by
  induction pre with
  | nil => rfl
  | cons c rest ih =>
    rw [List.cons_append, scanQ, matchQAt_cons_ne (h c (List.mem_cons_self _ _))]
    exact ih (fun d hd => h d (List.mem_cons_of_mem _ hd))

theorem matchQAt_exact {la ln : List Char} (hla : la ≠ []) (hln : ln ≠ [])
    (ha : ∀ c ∈ la, classChar c = true) (hb : ∀ c ∈ ln, classChar c = true) :
    matchQAt ('q' :: '=' :: (la ++ ',' :: ln)) = some (la, ln) := by
  have h1 : startsWithSeq ['q', '='] ('q' :: '=' :: (la ++ ',' :: ln)) = true := by
    rw [startsWithSeq, startsWithSeq, startsWithSeq]
    simp
  have h2 : (la ++ ',' :: ln).takeWhile classChar = la :=
    takeWhile_append_stop ha (by decide)
  have h3 : (la ++ ',' :: ln).dropWhile classChar = ',' :: ln :=
    dropWhile_append_stop ha (by decide)
  have h4 : ln.takeWhile classChar = ln := takeWhile_eq_self_of_all hb
  have h5 : la.isEmpty = false := by
    cases la with
    | nil => exact absurd rfl hla
    | cons a as => rfl
  have h6 : ln.isEmpty = false := by
    cases ln with
    | nil => exact absurd rfl hln
    | cons a as => rfl
  rw [matchQAt, h1]
  simp only [if_true, List.drop_succ_cons, List.drop_zero, h2, h3, h4, h5, h6]
  simp

theorem scanQ_exact {la ln : List Char} (hla : la ≠ []) (hln : ln ≠ [])
    (ha : ∀ c ∈ la, classChar c = true) (hb : ∀ c ∈ ln, classChar c = true) :
    scanQ ('q' :: '=' :: (la ++ ',' :: ln)) = some (la, ln) := by
  rw [scanQ, matchQAt_exact hla hln ha hb]

theorem dotPlus_ne_nil {l g : List Char} (h : dotPlus l = some g) : g ≠ [] := by
  cases l with
  | nil => simp [dotPlus] at h
  | cons c rest =>
    rw [dotPlus] at h
    by_cases hc : isLineTerm c
    · simp [hc] at h
    · simp [hc] at h
      rw [← h]
      exact List.cons_ne_nil _ _

theorem backtrackWs_ne_nil {l : List Char} {k : Nat} {g : List Char}
    (h : backtrackWs l k = some g) : g ≠ [] := by
  induction k with
  | zero => exact dotPlus_ne_nil h
  | succ k ih =>
    rw [backtrackWs] at h
    cases hd : dotPlus (l.drop (k + 1)) with
    | some g0 =>
      rw [hd] at h
      simp at h
      rw [← h]
      exact dotPlus_ne_nil hd
    | none =>
      rw [hd] at h
      exact ih h

theorem findPathMatch_ne_nil {l g : List Char} (h : findPathMatch l = some g) :
    g ≠ [] := by
  induction l with
  | nil => simp [findPathMatch] at h
  | cons c rest ih =>
    rw [findPathMatch] at h
    by_cases hs : startsWithSeq ("Path:").data (c :: rest) = true
    · rw [if_pos hs] at h
      cases hm : matchTail ((c :: rest).drop 5) with
      | some g0 =>
        rw [hm] at h
        simp at h
        rw [← h]
        exact backtrackWs_ne_nil hm
      | none =>
        rw [hm] at h
        exact ih h
    · rw [if_neg hs] at h
      exact ih h

theorem findPathMatch_contains {l g : List Char} (h : findPathMatch l = some g) :
    containsSeq ("Path:").data l = true := by
  induction l with
  | nil => simp [findPathMatch] at h
  | cons c rest ih =>
    rw [containsSeq, Bool.or_eq_true]
    rw [findPathMatch] at h
    by_cases hs : startsWithSeq ("Path:").data (c :: rest) = true
    · exact Or.inl hs
    · rw [if_neg hs] at h
      exact Or.inr (ih h)

theorem extractPath_eq_some_iff (s : String) :
    (∃ l, extractPathCoordinates (.str s) = some l) ↔
    (∃ g, findPathMatch s.data = some g ∧
      2 ≤ (splitOnChar '|' (trimSeq g)).length ∧
      2 ≤ ((splitOnChar '|' (trimSeq g)).filterMap parsePairJS).length) := by
  constructor
  · rintro ⟨l, hl⟩
    rw [extractPathCoordinates] at hl
    by_cases hs0 : s = ""
    · rw [if_pos hs0] at hl
      exact absurd hl (by simp)
    rw [if_neg hs0] at hl
    by_cases hc : strContains s "Path:" = true
    · rw [if_pos hc] at hl
      cases hm : findPathMatch s.data with
      | none =>
        rw [hm] at hl
        exact absurd hl (by simp)
      | some g =>
        rw [hm] at hl
        simp only [] at hl
        by_cases hg : g.isEmpty = true
        · rw [if_pos hg] at hl
          exact absurd hl (by simp)
        rw [if_neg hg] at hl
        by_cases h2 : (splitOnChar '|' (trimSeq g)).length ≥ 2
        · rw [if_pos h2] at hl
          by_cases h3 : ((splitOnChar '|' (trimSeq g)).filterMap parsePairJS).length ≥ 2
          · exact ⟨g, rfl, h2, h3⟩

          · rw [if_neg h3] at hl
            exact absurd hl (by simp)
        · rw [if_neg h2] at hl
          exact absurd hl (by simp)
    · rw [if_neg hc] at hl
      exact absurd hl (by simp)
  · rintro ⟨g, hg, h2, h3⟩
    have hgn : g ≠ [] := findPathMatch_ne_nil hg
    have hge : g.isEmpty = false := by
      cases g with
      | nil => exact absurd rfl hgn
      | cons a as => rfl
    have hcon : strContains s "Path:" = true := findPathMatch_contains hg
    have hs0 : s ≠ "" := by
      intro h
      rw [h] at hg
      exact absurd hg (by simp [findPathMatch])
    refine ⟨(splitOnChar '|' (trimSeq g)).filterMap parsePairJS, ?_⟩
    rw [extractPathCoordinates, if_neg hs0, if_pos hcon, hg]
    simp only []
    rw [if_neg (by simp [hge]), if_pos h2, if_pos h3]

theorem classify_path_eq {s : String} (hfb : isFirebaseUrl (.str s) = false) :
    (∃ ps, classify (.str s) = .path ps) ↔
    (∃ l, extractPathCoordinates (.str s) = some l) := by
  have hv := voice_false_of_not_url hfb
  have hi := image_false_of_not_url hfb
  constructor
  · rintro ⟨ps, hps⟩
    cases hpe : extractPathCoordinates (.str s) with
    | some l => exact ⟨l, rfl⟩
    | none =>
      rw [classify] at hps
      simp only [hv, hi, hfb, Bool.false_eq_true, if_false, hpe] at hps
      cases hmm : extractMapCoordinates (.str s) with
      | some c =>
        rw [hmm] at hps
        simp at hps
      | none =>
        rw [hmm] at hps
        simp at hps
  · rintro ⟨l, hl⟩
    refine ⟨l, ?_⟩
    rw [classify]
    simp only [hv, hi, hfb, Bool.false_eq_true, if_false, hl]

/-! ### Projector helper lemmas -/

theorem normalizeAll_eq_none {entries : List (String × Option RawRec)}
    (h : ∃ e ∈ entries, e.2 = none) : normalizeAll entries = none := by
  induction entries with
  | nil => simp at h
  | cons e rest ih =>
    rcases h with ⟨a, ha, h2⟩
    rcases List.mem_cons.mp ha with h3 | h3
    · subst h3
      simp [normalizeAll, normalizeEntry, h2]
    · cases hne : normalizeEntry e.1 e.2 with
      | none => simp [normalizeAll, hne]
      | some r => simp [normalizeAll, hne, ih ⟨a, h3, h2⟩]

theorem normalizeAll_isSome {entries : List (String × Option RawRec)}
    (h : ∀ e ∈ entries, e.2 ≠ none) : ∃ ms, normalizeAll entries = some ms := by
  induction entries with
  | nil => exact ⟨[], rfl⟩
  | cons e rest ih =>
    obtain ⟨ms, hms⟩ := ih (fun a ha => h a (List.mem_cons_of_mem _ ha))
    obtain ⟨v, hv⟩ := Option.ne_none_iff_exists'.mp (h e (List.mem_cons_self _ _))
    exact ⟨(if keyFalsy v.key then { v with key := some e.1 } else v) :: ms,
      by simp [normalizeAll, normalizeEntry, hv, hms]⟩

theorem mem_normalizeAll {entries : List (String × Option RawRec)} {ms : List RawRec}
    (hn : normalizeAll entries = some ms) {slot : String} {r : RawRec}
    (hmem : (slot, some r) ∈ entries) :
    (if keyFalsy r.key then { r with key := some slot } else r) ∈ ms := by
  induction entries generalizing ms with
  | nil => simp at hmem
  | cons e rest ih =>
    rw [normalizeAll] at hn
    cases hne : normalizeEntry e.1 e.2 with
    | none => rw [hne] at hn; exact absurd hn (by simp)
    | some r0 =>
      rw [hne] at hn
      cases hna : normalizeAll rest with
      | none => rw [hna] at hn; exact absurd hn (by simp)
      | some rs =>
        rw [hna] at hn
        have hms : ms = r0 :: rs := by
          cases hn; rfl
        subst hms
        rcases List.mem_cons.mp hmem with h3 | h3
        · have he : normalizeEntry slot (some r) = some r0 := by
            rw [← h3] at hne; exact hne
          have : (if keyFalsy r.key then { r with key := some slot } else r) = r0 := by
            simpa [normalizeEntry] using he
          rw [this]
          exact List.mem_cons_self _ _
        · exact List.mem_cons_of_mem _ (ih hna h3)

theorem recLE_trans : ∀ a b c : RawRec, recLE a b → recLE b c → recLE a c := by
  intro a b c h1 h2
  simp only [recLE, decide_eq_true_eq] at *
  omega

theorem recLE_total : ∀ a b : RawRec, recLE a b || recLE b a := by
  intro a b
  simp only [recLE, Bool.or_eq_true, decide_eq_true_eq]
  omega

theorem mergeSort_pair (a b : RawRec) :
    [a, b].mergeSort recLE = if recLE a b then [a, b] else [b, a] := by
  rw [List.mergeSort]
  simp [List.splitInTwo, List.splitAt, List.splitAt.go, List.mergeSort, List.merge]

/-! ### Claim C4 -/

/-- Claim C4 counterexample: alone, `goodRec` is emitted; next to a
malformed (null) stored record, the whole emitted snapshot becomes empty —
the malformed record is not dropped individually, it aborts everything. -/
theorem handleValue_abort_counterexample :
    handleValue (some [("m1", some goodRec), ("m2", none)]) = [] ∧
    handleValue (some [("m1", some goodRec)]) = [goodRec] := by
  constructor
  · rfl
  · show sortMsgs [goodRec] = [goodRec]
    exact List.mergeSort_singleton goodRec

/-- Claim C4 (amended): the projector never throws — any record on which
normalization throws (a null/undefined stored value) lands in the catch
arm, which replaces the whole snapshot with the empty list (dropping the
well-formed records too); a snapshot with no such record is processed in
full; an absent snapshot yields the empty list. -/
theorem handleValue_catch_empties (entries : List (String × Option RawRec)) :
    ((∃ e ∈ entries, e.2 = none) → handleValue (some entries) = []) ∧
    ((∀ e ∈ entries, e.2 ≠ none) →
      ∃ ms, normalizeAll entries = some ms ∧
        handleValue (some entries) = sortMsgs ms) ∧
    handleValue none = [] := by
  refine ⟨fun h => ?_, fun h => ?_, rfl⟩
  · simp [handleValue, normalizeAll_eq_none h]
  · obtain ⟨ms, hms⟩ := normalizeAll_isSome h
    exact ⟨ms, hms, by simp [handleValue, hms]⟩

theorem handleValue_catch_empties_witness :
    handleValue (some [("m1", some goodRec), ("m2", none)]) = [] :=
  (handleValue_catch_empties [("m1", some goodRec), ("m2", none)]).1
    ⟨("m2", none), by simp, rfl⟩

/-! ### Claim C9 -/

/-- Claim C9 counterexample: this record already has a key — the empty
string — yet it does not keep it: JavaScript truthiness treats the empty
string as missing and the storage-slot identity replaces it. -/
theorem handleValue_empty_key_counterexample :
    handleValue (some [("slotK", some emptyKeyRec)]) =
      [{ emptyKeyRec with key := some "slotK" }] ∧
    emptyKeyRec.key = some "" ∧ emptyKeyRec.key ≠ some "slotK" := by
  refine ⟨?_, rfl, by decide⟩
  show sortMsgs [{ emptyKeyRec with key := some "slotK" }] = _
  exact List.mergeSort_singleton _

/-- Claim C9 (amended): in any snapshot whose records all normalize, a
record with a falsy key (absent, or present but the empty string) appears
after normalization and ordering with the storage-slot identity as its
key; a record with a nonempty key keeps it unchanged. (Stability across
repeated invocations is purity: the projector is a function of the
snapshot.) -/
theorem handleValue_key_assignment (entries : List (String × Option RawRec))
    (hall : ∀ e ∈ entries, e.2 ≠ none) (slot : String) (r : RawRec)
    (hmem : (slot, some r) ∈ entries) :
    (keyFalsy r.key = true →
      { r with key := some slot } ∈ handleValue (some entries)) ∧
    (∀ k, r.key = some k → k ≠ "" → r ∈ handleValue (some entries)) := by
  obtain ⟨ms, hms⟩ := normalizeAll_isSome hall
  have hv : handleValue (some entries) = sortMsgs ms := by simp [handleValue, hms]
  have hmm := mem_normalizeAll hms hmem
  refine ⟨fun hk => ?_, fun k hk hne => ?_⟩
  · rw [hv]
    have hin : { r with key := some slot } ∈ ms := by rwa [if_pos hk] at hmm
    exact List.mem_mergeSort.mpr hin
  · rw [hv]
    have hkf : keyFalsy r.key = false := by simp [keyFalsy, hk, hne]
    have hin : r ∈ ms := by
      rw [hkf] at hmm
      simpa using hmm
    exact List.mem_mergeSort.mpr hin

theorem handleValue_key_assignment_witness :
    { noKeyRec with key := some "s1" } ∈ handleValue (some [("s1", some noKeyRec)]) :=
  (handleValue_key_assignment [("s1", some noKeyRec)] (by decide) "s1" noKeyRec
    (by decide)).1 rfl

/-! ### Claim C5 -/

/-- Claim C5 counterexample: under the claim's key (fall back only when
`commandTimestamp` is absent) the input `[recZeroTs, recThreeTs]` has keys
0 and 3 and is already ascending, so the claimed ordering keeps it; the
code's falsy fallback gives keys 5 and 3 and swaps the two records. -/
theorem sortMsgs_zero_timestamp_counterexample :
    sortMsgs [recZeroTs, recThreeTs] = [recThreeTs, recZeroTs] ∧
    specSortKey recZeroTs < specSortKey recThreeTs ∧
    sortKey recZeroTs = 5 ∧ sortKey recThreeTs = 3 := by
  refine ⟨?_, by decide, by decide, by decide⟩
  rw [sortMsgs, mergeSort_pair]
  have h : recLE recZeroTs recThreeTs = false := by decide
  rw [h]
  simp

/-- Claim C5 (amended): ordering sorts ascending by the code's sort key
(`commandTimestamp`, with a zero-or-absent value falling through to the
legacy `timestamp`, and that again to 0 — JavaScript falsiness, not mere
absence); the output is a permutation of the input; records with equal
keys keep their input order (stability); and re-sorting the output changes
nothing (idempotence). -/
theorem sortMsgs_sorted_stable_idempotent (l : List RawRec) :
    (sortMsgs l).Sorted (fun a b => sortKey a ≤ sortKey b) ∧
    (sortMsgs l).Perm l ∧
    (∀ k : Int, (sortMsgs l).filter (fun r => sortKey r == k) =
      l.filter (fun r => sortKey r == k)) ∧
    sortMsgs (sortMsgs l) = sortMsgs l := by
  have hs := List.sorted_mergeSort recLE_trans recLE_total l
  refine ⟨hs.imp (fun h => of_decide_eq_true h), List.mergeSort_perm l recLE,
    fun k => ?_, List.mergeSort_of_sorted hs⟩
  have hpw : (l.filter (fun r => sortKey r == k)).Pairwise
      (fun a b => recLE a b = true) := by
    apply List.pairwise_of_forall_mem_list
    intro a ha b hb
    have ha' : sortKey a = k := by simpa using List.of_mem_filter ha
    have hb' : sortKey b = k := by simpa using List.of_mem_filter hb
    simp [recLE, ha', hb']
  have hsub : List.Sublist (l.filter (fun r => sortKey r == k)) (l.mergeSort recLE) :=
    List.sublist_mergeSort recLE_trans recLE_total hpw (List.filter_sublist l)
  have h1 : List.Sublist
      ((l.filter (fun r => sortKey r == k)).filter (fun r => sortKey r == k))
      ((l.mergeSort recLE).filter (fun r => sortKey r == k)) :=
    hsub.filter _
  have hself : (l.filter (fun r => sortKey r == k)).filter (fun r => sortKey r == k) =
      l.filter (fun r => sortKey r == k) :=
    List.filter_eq_self.mpr (fun a ha => (List.mem_filter.mp ha).2)
  rw [hself] at h1
  have hperm : List.Perm ((l.mergeSort recLE).filter (fun r => sortKey r == k))
      (l.filter (fun r => sortKey r == k)) :=
    (List.mergeSort_perm l recLE).filter _
  exact (h1.eq_of_length hperm.length_eq.symm).symm

/-! ### Claim C2 -/

/-- Claim C2 counterexample: the claim's own example `https://maps?q=1.0,2.0`
lacks the `google.com/maps` substring the extractor requires, so it
classifies as plain text, not as a single point; and a coordinate signed
with `+` is rejected too (the regex class `[\d.-]` has no plus), although
the claim's float grammar allows an optional sign. -/
theorem classify_bare_maps_counterexample :
    classify (.str "https://maps?q=1.0,2.0") =
      .plainText (.str "https://maps?q=1.0,2.0") ∧
    extractMapCoordinates (.str "https://maps?q=1.0,2.0") = none ∧
    extractMapCoordinates (.str "https://www.google.com/maps?q=+1.0,2.0") = none := by
  refine ⟨by decide, by decide, by decide⟩

/-- Claim C2 (amended): for every URL of the shape
`https://www.google.com/maps?q=<run1>,<run2>` in which each run is a
nonempty string over the regex class `[\d.-]` (digits, dots, hyphens — a
plus sign is not accepted), classification yields `SinglePoint` carrying
exactly those two runs as `lat` and `lng`. -/
theorem classify_maps_query (la ln : List Char) (hla : la ≠ []) (hln : ln ≠ [])
    (ha : ∀ c ∈ la, classChar c = true) (hb : ∀ c ∈ ln, classChar c = true) :
    classify (.str (String.mk (mapsHead ++ 'q' :: '=' :: (la ++ ',' :: ln)))) =
      .singlePoint ⟨String.mk la, String.mk ln⟩ := by
  have hmemL : ∀ x : Char, classChar x = false → x ∉ mapsHead → x ≠ 'q' →
      x ≠ '=' → x ≠ ',' → x ∉ mapsHead ++ 'q' :: '=' :: (la ++ ',' :: ln) := by
    intro x hx hmh hq he hc hm
    rcases List.mem_append.mp hm with hm | hm
    · exact hmh hm
    · simp only [List.mem_cons, List.mem_append] at hm
      rcases hm with hm | hm | hm | hm | hm
      · exact hq hm
      · exact he hm
      · exact not_mem_of_classChar ha hx hm
      · exact hc hm
      · exact not_mem_of_classChar hb hx hm
  have hne : String.mk (mapsHead ++ 'q' :: '=' :: (la ++ ',' :: ln)) ≠ "" := by
    intro h
    have h2 : mapsHead ++ 'q' :: '=' :: (la ++ ',' :: ln) = [] :=
      congrArg String.data h
    exact List.cons_ne_nil _ _ (List.append_eq_nil.mp h2).2
  have hf : strContains (String.mk (mapsHead ++ 'q' :: '=' :: (la ++ ',' :: ln)))
      "firebasestorage.googleapis.com" = false := by
    show containsSeq ("firebasestorage.googleapis.com").data
      (mapsHead ++ 'q' :: '=' :: (la ++ ',' :: ln)) = false
    exact containsSeq_eq_false_of_not_mem (by decide)
      (hmemL 'f' (by decide) (by decide) (by decide) (by decide) (by decide))
  have hp : strContains (String.mk (mapsHead ++ 'q' :: '=' :: (la ++ ',' :: ln)))
      "Path:" = false := by
    show containsSeq ("Path:").data
      (mapsHead ++ 'q' :: '=' :: (la ++ ',' :: ln)) = false
    exact containsSeq_eq_false_of_not_mem (by decide)
      (hmemL 'P' (by decide) (by decide) (by decide) (by decide) (by decide))
  have hfb : isFirebaseUrl (.str (String.mk
      (mapsHead ++ 'q' :: '=' :: (la ++ ',' :: ln)))) = false := by
    simp [isFirebaseUrl, hf]
  have hpath : extractPathCoordinates (.str (String.mk
      (mapsHead ++ 'q' :: '=' :: (la ++ ',' :: ln)))) = none := by
    simp [extractPathCoordinates, hp]
  have hg1 : strContains (String.mk (mapsHead ++ 'q' :: '=' :: (la ++ ',' :: ln)))
      "google.com/maps" = true := by
    show containsSeq ("google.com/maps").data
      (mapsHead ++ 'q' :: '=' :: (la ++ ',' :: ln)) = true
    have h0 : containsSeq ("google.com/maps").data mapsHead = true := by decide
    exact containsSeq_append_left _ h0
  have hg2 : strContains (String.mk (mapsHead ++ 'q' :: '=' :: (la ++ ',' :: ln)))
      "q=" = true := by
    show containsSeq ("q=").data
      (mapsHead ++ 'q' :: '=' :: (la ++ ',' :: ln)) = true
    apply containsSeq_append_right
    rw [containsSeq, Bool.or_eq_true]
    left
    simp [startsWithSeq]
  have hscan : scanQ (mapsHead ++ 'q' :: '=' :: (la ++ ',' :: ln)) =
      some (la, ln) := by
    rw [scanQ_append_skip (by decide)]
    exact scanQ_exact hla hln ha hb
  have hmap : extractMapCoordinates (.str (String.mk
      (mapsHead ++ 'q' :: '=' :: (la ++ ',' :: ln)))) =
      some ⟨String.mk la, String.mk ln⟩ := by
    simp only [extractMapCoordinates, hg1, hg2, Bool.and_self, if_true, if_neg hne]
    rw [hscan]
  simp [classify, voice_false_of_not_url hfb, image_false_of_not_url hfb, hfb,
    hpath, hmap]

theorem classify_maps_query_witness :
    classify (.str (String.mk
      (mapsHead ++ 'q' :: '=' :: (['1', '.', '0'] ++ ',' :: ['2', '.', '0'])))) =
      .singlePoint ⟨String.mk ['1', '.', '0'], String.mk ['2', '.', '0']⟩ :=
  classify_maps_query ['1', '.', '0'] ['2', '.', '0'] (by decide) (by decide)
    (by decide) (by decide)

/-! ### Claim C3 -/

/-- Claim C3 counterexample: in `Path: 1,2,3|4,5,6` neither raw pair
splits into exactly two tokens — each comma-split has three components —
so under the claim there are zero valid pairs and no Path; the code
nevertheless destructures only the first two components of each pair and
returns a Path. -/
theorem classify_path_three_tokens_counterexample :
    classify (.str "Path: 1,2,3|4,5,6") = .path [⟨"1", "2"⟩, ⟨"4", "5"⟩] ∧
    (splitOnChar ',' ("1,2,3").data).length = 3 ∧
    (splitOnChar ',' ("4,5,6").data).length = 3 := by
  refine ⟨by decide, by decide, by decide⟩

/-- Claim C3 (amended): for every string not matching the attachment-host
pattern, classification yields `Path` exactly when the regex
`/Path:\s*(.+)/` matches with some group `g` whose trimmed value splits on
`|` into at least 2 components, of which at least 2 parse as pairs — where
a pair parses exactly when its comma-split has a nonempty first and a
nonempty second component (additional components are ignored and no
numeric-shape check is made, see `parsePairJS`); fewer than 2 parsed pairs
fall through without error (the witness shows
`classify "Path: 1.0,2.0" = PlainText`). -/
theorem classify_path_characterization (s : String)
    (hfb : isFirebaseUrl (.str s) = false) :
    (∃ ps, classify (.str s) = .path ps) ↔
    (∃ g, findPathMatch s.data = some g ∧
      2 ≤ (splitOnChar '|' (trimSeq g)).length ∧
      2 ≤ ((splitOnChar '|' (trimSeq g)).filterMap parsePairJS).length) :=
  (classify_path_eq hfb).trans (extractPath_eq_some_iff s)

theorem classify_path_characterization_witness :
    isFirebaseUrl (.str "Path: 1.0,2.0") = false ∧
    ¬ (∃ ps, classify (.str "Path: 1.0,2.0") = .path ps) ∧
    classify (.str "Path: 1.0,2.0") = .plainText (.str "Path: 1.0,2.0") := by
  refine ⟨by decide, ?_, by decide⟩
  rw [classify_path_characterization _ (by decide)]
  rintro ⟨g, hg, h2, h3⟩
  have h0 : findPathMatch ("Path: 1.0,2.0").data = some (("1.0,2.0").data) := by
    decide
  rw [h0] at hg
  have hgg : g = ("1.0,2.0").data := by
    cases hg
    rfl
  subst hgg
  exact absurd h2 (by decide)

/-! ### Claim C10 -/

/-- Claim C10: every classification helper is total on degenerate input:
null, undefined, the empty string and non-string values make the three URL
predicates return false and the two extractors return null, and
classification degrades to the plain-text fallback without error. -/
theorem classify_degenerate_total (v : JsVal)
    (h : v = .nullV ∨ v = .undefV ∨ v = .str "" ∨ v = .other) :
    isFirebaseUrl v = false ∧ isFirebaseVoiceUrl v = false ∧
    isFirebaseImageUrl v = false ∧ extractMapCoordinates v = none ∧
    extractPathCoordinates v = none ∧ classify v = .plainText v := by
  rcases h with rfl | rfl | rfl | rfl <;> exact ⟨rfl, rfl, rfl, rfl, rfl, rfl⟩

theorem classify_degenerate_total_witness :
    isFirebaseUrl .nullV = false ∧ isFirebaseVoiceUrl .nullV = false ∧
    isFirebaseImageUrl .nullV = false ∧ extractMapCoordinates .nullV = none ∧
    extractPathCoordinates .nullV = none ∧ classify .nullV = .plainText .nullV :=
  classify_degenerate_total .nullV (Or.inl rfl)

end PhoneSecure
